import Mathlib

/-!
Verification development for the image-cache reclamation core of
`cinder/volume/drivers/netapp/dataontap/nfs_base.py` and the `clone_image`
entry point of the same file.  Python integers are modelled as `Nat`/`Int`,
Python float truncation `int(x)` on nonnegative values as floor (natural or
integer division), raised exceptions as `Except.error`, and the external
collaborators (`self._execute`, the ZAPI capacity client, the delete command)
as explicit oracle parameters.
-/

namespace Cinder

/-- Error messages carried by a raised Python exception. -/
abbrev Err := String

/-- An NFS share identifier (host plus export path). -/
abbrev Share := String

/-- A candidate cache file as handed to `_delete_files_till_bytes_free`
(`nfs_base.py` lines 484-504).  The code receives tuples from
`_shortlist_del_eligible_files`; it reads component 0 (`f[0]`, the file name,
joined to the mount point) and component 1 (`f[1]`, subtracted from
`bytes_to_free`, hence the file's size in bytes).  The `age` field is
modelled from the spec: the spec's CacheFile data model carries an age in
minutes, which the deletion code never reads. -/
structure CacheFile where
  name : String
  age : Nat
  size : Int
deriving DecidableEq, Repr

/-- Sum of the sizes of a list of cache files. -/
def sizeSum (l : List CacheFile) : Int := (l.map CacheFile.size).sum

/-- The comparison used by `sorted(file_list, key=lambda x: x[1], reverse=True)`
at line 488: a file may precede another exactly when its size is at least the
other's. -/
def bySizeDesc (a b : CacheFile) : Prop := b.size ≤ a.size

instance : DecidableRel bySizeDesc :=
  fun a b => inferInstanceAs (Decidable (b.size ≤ a.size))

instance : IsTotal CacheFile bySizeDesc :=
  ⟨fun a b => (le_total b.size a.size)⟩

instance : IsTrans CacheFile bySizeDesc :=
  ⟨fun _ _ _ hab hbc => le_trans hbc hab⟩

/-- Embedding of `sorted(file_list, key=lambda x: x[1], reverse=True)`
(line 488): a stable sort placing larger sizes first.  Python's sort is
stable; any stable sort realises it, here Mathlib's insertion sort. -/
def sortFiles (l : List CacheFile) : List CacheFile :=
  l.insertionSort bySizeDesc

/-- The `for f in sorted_files` loop of `_delete_files_till_bytes_free`
(lines 490-504).  `oracle` models `_delete_file_at_path` (line 506): `true`
when the `rm -f` command succeeded, `false` when it raised (the exception is
swallowed there and `False` returned).  Returns the file names attempted for
deletion, in order, together with the final value of the local
`bytes_to_free`: a successful delete subtracts `f[1]` and the loop returns
once the remainder is `≤ 0`; a failed delete changes nothing and the loop
moves on.  (The Python guard `if f:` is always true for a real tuple and is
not modelled.) -/
def deleteLoop (oracle : String → Bool) : List CacheFile → Int → List String × Int
  | [], btf => ([], btf)
  | f :: rest, btf =>
    if oracle f.name then
      if btf - f.size ≤ 0 then ([f.name], btf - f.size)
      else
        let r := deleteLoop oracle rest (btf - f.size)
        (f.name :: r.1, r.2)
    else
      let r := deleteLoop oracle rest btf
      (f.name :: r.1, r.2)

/-- Embedding of `_delete_files_till_bytes_free(file_list, share, bytes_to_free)`
(lines 484-504): nothing happens unless the candidate list is nonempty and
the byte target positive (`if file_list and bytes_to_free > 0`); otherwise
the candidates are sorted by size descending and the deletion loop runs. -/
def delete_files_till_bytes_free (oracle : String → Bool)
    (file_list : List CacheFile) (bytes_to_free : Int) : List String × Int :=
  if file_list ≠ [] ∧ 0 < bytes_to_free then
    deleteLoop oracle (sortFiles file_list) bytes_to_free
  else ([], bytes_to_free)

/-- Modelled from the spec (P3): the plan that accumulates candidates in the
given order until the cumulative size reaches the target, or the whole list
when the target is never reached. -/
def specPlan : List CacheFile → Int → List CacheFile
  | [], _ => []
  | f :: rest, b => if b - f.size ≤ 0 then [f] else f :: specPlan rest (b - f.size)

/-- Modelled from the spec (claim C1's selection rule): the accumulating plan
taken over the candidates ordered by age descending (oldest first). -/
def agePlan (l : List CacheFile) (b : Int) : List CacheFile :=
  specPlan (l.insertionSort (fun a c => c.age ≤ a.age)) b

/-- Python `res.strip('\n')`: remove newline characters from both ends of a
string (used on the stdout of the `find` command, line 476). -/
def stripNl (s : String) : String :=
  ⟨((s.data.dropWhile (· == '\n')).reverse.dropWhile (· == '\n')).reverse⟩

/-- Python `str.split('\n')` on the character list of a string: split at every
newline, keeping empty pieces (so the empty string yields one empty piece). -/
def splitNl : List Char → List (List Char)
  | [] => [[]]
  | c :: rest =>
    match splitNl rest with
    | [] => [[]]
    | h :: t => if c = '\n' then [] :: h :: t else (c :: h) :: t

/-- Embedding of `_find_old_cache_files(share)` (lines 468-482).
`shortlist` models the subclass hook `_shortlist_del_eligible_files`
(declared at line 464, implementation not in this excerpt), which pairs the
surviving names with their data; `mount_fs` is `_get_mount_point_for_share`'s
result; `exec_res` is the outcome of `self._execute(*cmd)` running the `find`
command — `Except.error` when the command raises, `Except.ok` its stdout.
There is no exception handler in this function: a raised listing error
propagates to the caller.  A nonempty stdout is stripped of newlines, split
on newlines, and each path loses the mount prefix plus the slash
(`x[mount_fs_len + 1:]`); an empty stdout yields the empty list. -/
def find_old_cache_files (shortlist : List String → List CacheFile)
    (mount_fs : String) (exec_res : Except Err String) :
    Except Err (List CacheFile) := do
  let res ← exec_res
  if res ≠ "" then
    let old_file_paths := (splitNl (stripNl res).data).map (fun cs => ⟨cs⟩)
    let old_files := old_file_paths.map
      (fun x : String => (⟨x.data.drop (mount_fs.data.length + 1)⟩ : String))
    pure (shortlist old_files)
  else
    pure []

/-- The two threshold options read at lines 434-437
(`thres_avl_size_perc_start`, `thres_avl_size_perc_stop`). -/
structure Config where
  thres_avl_size_perc_start : Nat
  thres_avl_size_perc_stop : Nat
deriving DecidableEq, Repr

/-- The external collaborators of one reclamation pass: the capacity query
(`_get_capacity_info`, returning `size-total` and `size-available` in bytes,
or raising), the stdout of the `find` listing per share (or the raise), the
subclass shortlist hook, the per-file delete outcome, and the mount point. -/
structure Backend where
  capacity : Share → Except Err (Nat × Nat)
  listing : Share → Except Err String
  shortlist : List String → List CacheFile
  delete_ok : String → Bool
  mount : Share → String

/-- Python `int((float(total_avl) / total_size) * 100)` at line 442, with the
float truncation modelled as the floor given by natural division.  (Python
raises `ZeroDivisionError` when `total_size` is zero; `process_share` treats
that case as an error before this value is used.) -/
def avl_percent (total_size total_avl : Nat) : Nat :=
  total_avl * 100 / total_size

/-- The byte target computed at lines 446-448:
`threshold_size = int((thres_size_perc_stop * total_size) / 100)` (float
division truncated, i.e. the floor) and
`bytes_to_free = int(threshold_size - total_avl)`. -/
def target_bytes (stop total_size total_avl : Nat) : Int :=
  ((stop * total_size) / 100 : Nat) - (total_avl : Int)

/-- What one iteration of the share loop did: whether
`_find_old_cache_files` was invoked for the share, and the file names for
which a delete was attempted, in order. -/
structure ShareEffects where
  scanned : Bool
  attempts : List String
deriving DecidableEq, Repr

/-- The body of the `for share in self._mounted_shares` loop of
`_clean_image_cache` (lines 439-454), i.e. the code inside the per-share
`try`.  Raises (returns `Except.error`) when the capacity query raises, when
`total_size` is zero (Python `ZeroDivisionError`), or when the listing
command raises inside `_find_old_cache_files`; otherwise reports whether the
share was scanned and which deletions were attempted. -/
def process_share (cfg : Config) (be : Backend) (share : Share) :
    Except Err ShareEffects := do
  let cap ← be.capacity share
  let total_size := cap.1
  let total_avl := cap.2
  if total_size = 0 then
    Except.error "ZeroDivisionError"
  else
    if avl_percent total_size total_avl ≤ cfg.thres_avl_size_perc_start then do
      let eligible_files ←
        find_old_cache_files be.shortlist (be.mount share) (be.listing share)
      let bytes_to_free :=
        target_bytes cfg.thres_avl_size_perc_stop total_size total_avl
      let r := delete_files_till_bytes_free be.delete_ok eligible_files
        bytes_to_free
      pure ⟨true, r.1⟩
    else
      pure ⟨false, []⟩

/-- The share loop of `_clean_image_cache` with its per-share
`try/except ... continue` (lines 438-459): each share's outcome — normal
effects or the caught, logged exception — is recorded and the loop moves to
the next share. -/
def clean_loop (cfg : Config) (be : Backend) :
    List Share → List (Share × Except Err ShareEffects)
  | [] => []
  | sh :: rest => (sh, process_share cfg be sh) :: clean_loop cfg be rest

/-- Result of one whole reclamation pass: the outcome of the body of
`_clean_image_cache` (`Except.error` when the pass raised before the share
loop, e.g. while reading the threshold configuration), and the value of
`self.cleaning` after the `finally` block at lines 460-462. -/
structure PassResult where
  outcomes : Except Err (List (Share × Except Err ShareEffects))
  cleaning : Bool

/-- Embedding of `_clean_image_cache` (lines 430-462).  `cfgRes` models the
reads of `self.configuration.thres_avl_size_perc_start/stop` at lines
434-437, which sit inside the `try` but before the loop: when they raise the
pass body ends with that error.  Every path runs the `finally`, which sets
`self.cleaning = False`. -/
def clean_image_cache (cfgRes : Except Err Config) (be : Backend)
    (shares : List Share) : PassResult :=
  match cfgRes with
  | Except.error e => ⟨Except.error e, false⟩
  | Except.ok cfg => ⟨Except.ok (clean_loop cfg be shares), false⟩

/-- Result of one call to `_spawn_clean_cache_job` (lines 418-428): the value
of `self.cleaning` afterwards, whether a cleaning thread was started
(`threading.Timer(0, ...).start()`), and the Python return value — `None` on
both paths (`return` with no argument at line 423, falling off the end at
line 428), modelled as `none : Option Bool`. -/
structure SpawnOut where
  cleaning : Bool
  launched : Bool
  retval : Option Bool
deriving DecidableEq, Repr

/-- Embedding of `_spawn_clean_cache_job` (lines 418-428), atomic under the
`@utils.synchronized('clean_cache')` lock: when `self.cleaning` is set the
call logs and returns immediately (no launch, no queueing); otherwise it sets
the flag and starts the detached cleaning job.  Python returns `None` either
way. -/
def spawn_clean_cache_job (cleaning : Bool) : SpawnOut :=
  if cleaning then ⟨true, false, none⟩ else ⟨true, true, none⟩

/-- The events of the single-flight job protocol: a trigger
(`_spawn_clean_cache_job` call) or the completion of a running pass (the
`finally` block of `_clean_image_cache`). -/
inductive JobLbl
  | trigger
  | finish
deriving DecidableEq, Repr

/-- Process-wide job state: the `self.cleaning` flag and how many reclamation
passes are currently running. -/
structure JobSt where
  cleaning : Bool
  running : Nat
deriving DecidableEq, Repr

/-- Initial state: the `cleaning` attribute unset (`getattr(self, 'cleaning',
None)` is falsy) and no pass running. -/
def JobInit : JobSt := ⟨false, 0⟩

/-- Effect of one trigger (lines 418-428, atomic under the lock): when a pass
is running the trigger is dropped (state unchanged); otherwise the flag is
set and a new pass starts. -/
def job_trigger (s : JobSt) : JobSt :=
  if s.cleaning then s else ⟨true, s.running + 1⟩

/-- Effect of a running pass completing: its `finally` clears the flag
(line 462) and the pass ceases to run.  When no pass is running there is
nothing to finish. -/
def job_finish (s : JobSt) : JobSt :=
  if s.running = 0 then s else ⟨false, s.running - 1⟩

/-- Run a sequence of trigger/finish events from a state. -/
def job_run : List JobLbl → JobSt → JobSt
  | [], s => s
  | JobLbl.trigger :: ls, s => job_run ls (job_trigger s)
  | JobLbl.finish :: ls, s => job_run ls (job_finish s)

/-- The tuple returned by `clone_image` (lines 517-554): the properties dict
`{'provider_location': share, 'bootable': bootable}` and the cloned flag. -/
structure CloneResult where
  provider_location : Option String
  bootable : Bool
  cloned : Bool
deriving DecidableEq, Repr

/-- Continuation of the `try` block of `clone_image` (lines 542-549) once
the clone step was chosen: when the clone raised or returned `False` the
locals stay `(False, False)`; when it returned `True`, `do_qos` and then
`post_clone_image` run, and an exception in either leaves `post_clone` at
`False` while `cloned` stays `True`. -/
def clone_step (cloned : Except Err Bool) (do_qos : Except Err Unit)
    (post_clone_image : Except Err Bool) : Bool × Bool :=
  match cloned, do_qos, post_clone_image with
  | Except.error _, _, _ => (false, false)
  | Except.ok false, _, _ => (false, false)
  | Except.ok true, Except.error _, _ => (true, false)
  | Except.ok true, Except.ok _, Except.error _ => (true, false)
  | Except.ok true, Except.ok _, Except.ok pc => (true, pc)

/-- The `try` block of `clone_image` (lines 535-549) together with the
`except Exception` handler: each internal step is an oracle that either
raises or returns.  `find_in_cache` models `_find_image_in_cache(image_id)`;
when its result is nonempty `clone_from_cache` runs, otherwise
`direct_nfs_clone`; the continuation `clone_step` handles the QoS and
post-clone steps.  Returns the values of the locals `(cloned, post_clone)`
after the handler: an exception anywhere leaves the locals as last
assigned. -/
def clone_image_body (find_in_cache : Except Err (List (Share × String)))
    (clone_from_cache direct_nfs_clone : Except Err Bool)
    (do_qos : Except Err Unit) (post_clone_image : Except Err Bool) :
    Bool × Bool :=
  match find_in_cache with
  | Except.error _ => (false, false)
  | Except.ok cache_result =>
    clone_step (if cache_result.isEmpty then direct_nfs_clone
                else clone_from_cache) do_qos post_clone_image

/-- Embedding of `clone_image` (lines 517-554).  `extra_specs` models
`na_utils.get_volume_extra_specs(volume)` at line 533, which runs before the
`try`: when it raises, the exception propagates to the caller.  Otherwise the
`finally` block computes `cloned = cloned and post_clone` and returns the
properties dict and the flag; `provider_location` is the volume's location
(`loc`) when cloning fully succeeded and `None` otherwise, and `bootable`
equals the final flag. -/
def clone_image (extra_specs : Except Err Unit)
    (find_in_cache : Except Err (List (Share × String)))
    (clone_from_cache direct_nfs_clone : Except Err Bool)
    (do_qos : Except Err Unit) (post_clone_image : Except Err Bool)
    (loc : String) : Except Err CloneResult :=
  match extra_specs with
  | Except.error e => Except.error e
  | Except.ok _ =>
    let b := clone_image_body find_in_cache clone_from_cache direct_nfs_clone
      do_qos post_clone_image
    let cloned := b.1 && b.2
    Except.ok ⟨if cloned then some loc else none, cloned, cloned⟩

/-- A concrete backend for instantiations: the capacity query raises on share
"s1" and reports 100 total / 80 available bytes elsewhere; listings are
empty; every delete succeeds. -/
def beW : Backend :=
  ⟨fun sh => if sh = "s1" then Except.error "backend down"
             else Except.ok (100, 80),
   fun _ => Except.ok "", fun _ => [], fun _ => true, fun _ => "/mnt"⟩

/-- A concrete backend whose only share holds 1000 total bytes with 705
available and no stale cache files. -/
def beC4 : Backend :=
  ⟨fun _ => Except.ok (1000, 705), fun _ => Except.ok "", fun _ => [],
   fun _ => true, fun _ => "/mnt"⟩

/-- A concrete backend whose only share holds 30 total bytes with 22
available and one stale cache file of 1 byte. -/
def beC8 : Backend :=
  ⟨fun _ => Except.ok (30, 22), fun _ => Except.ok "/mnt/img-cache-1",
   fun _ => [⟨"img-cache-1", 10, 1⟩], fun _ => true, fun _ => "/mnt"⟩

/-- Sum of sizes of the empty candidate list. -/
theorem sizeSum_nil : sizeSum [] = 0 := rfl

/-- Sum of sizes of a candidate list, cons case. -/
theorem sizeSum_cons (f : CacheFile) (l : List CacheFile) :
    sizeSum (f :: l) = f.size + sizeSum l := by
  simp [sizeSum]

/-- When every delete succeeds, the deletion loop attempts exactly the
accumulating plan and ends with the target reduced by the plan's total
size. -/
theorem deleteLoop_allTrue (l : List CacheFile) :
    ∀ B : Int, 0 < B →
      deleteLoop (fun _ => true) l B
        = ((specPlan l B).map CacheFile.name, B - sizeSum (specPlan l B)) := by
  induction l with
  | nil => intro B _; simp [deleteLoop, specPlan, sizeSum]
  | cons f rest ih =>
    intro B hB
    by_cases h : B - f.size ≤ 0
    · simp [deleteLoop, specPlan, h, sizeSum]
    · have h' : 0 < B - f.size := by omega
      have hr := ih (B - f.size) h'
      simp only [deleteLoop, if_neg h, specPlan, hr, List.map_cons,
        sizeSum_cons, if_true, Prod.mk.injEq]
      exact ⟨trivial, by omega⟩

/-- The accumulating plan is a prefix of its candidate list. -/
theorem specPlan_append (l : List CacheFile) :
    ∀ B : Int, ∃ t, specPlan l B ++ t = l := by
  induction l with
  | nil => intro B; exact ⟨[], rfl⟩
  | cons f rest ih =>
    intro B
    by_cases h : B - f.size ≤ 0
    · exact ⟨rest, by simp [specPlan, h]⟩
    · obtain ⟨t, ht⟩ := ih (B - f.size)
      exact ⟨t, by simp [specPlan, h, ht]⟩

/-- The accumulating plan reaches the target, unless it is the entire
candidate list. -/
theorem specPlan_reaches (l : List CacheFile) :
    ∀ B : Int, 0 < B →
      B ≤ sizeSum (specPlan l B) ∨ specPlan l B = l := by
  induction l with
  | nil => intro B _; exact Or.inr rfl
  | cons f rest ih =>
    intro B hB
    by_cases h : B - f.size ≤ 0
    · left; simp only [specPlan, if_pos h, sizeSum_cons, sizeSum_nil]; omega
    · have h' : 0 < B - f.size := by omega
      rcases ih (B - f.size) h' with hle | heq
      · left
        simp only [specPlan, if_neg h, sizeSum_cons]
        omega
      · right
        simp [specPlan, h, heq]

/-- Every proper prefix of the accumulating plan has total size strictly
below the target. -/
theorem specPlan_minimal (l : List CacheFile) :
    ∀ B : Int, 0 < B → ∀ q t, q ++ t = specPlan l B → t ≠ [] →
      sizeSum q < B := by
  induction l with
  | nil =>
    intro B hB q t hqt ht
    rw [specPlan] at hqt
    rcases List.append_eq_nil.mp hqt with ⟨_, ht'⟩
    exact absurd ht' ht
  | cons f rest ih =>
    intro B hB q t hqt ht
    by_cases h : B - f.size ≤ 0
    · rw [specPlan, if_pos h] at hqt
      cases q with
      | nil => simpa [sizeSum_nil] using hB
      | cons a q' =>
        rw [List.cons_append] at hqt
        have h2 := (List.cons.injEq _ _ _ _).mp hqt
        rcases List.append_eq_nil.mp h2.2 with ⟨_, ht'⟩
        exact absurd ht' ht
    · rw [specPlan, if_neg h] at hqt
      cases q with
      | nil => simpa [sizeSum_nil] using hB
      | cons a q' =>
        rw [List.cons_append] at hqt
        have h2 := (List.cons.injEq _ _ _ _).mp hqt
        have h' : 0 < B - f.size := by omega
        have := ih (B - f.size) h' q' t h2.2 ht
        rw [h2.1, sizeSum_cons]
        omega

/-- C1 (counterexample): with two candidates where the oldest file is the
smaller one and a target of 5 bytes, the code deletes the newer, larger file
"b" first and stops, while the smallest oldest-first prefix reaching the
target is the single file "a" (whose size alone already reaches 5): the
deletion order is size-descending, not age-descending. -/
theorem plan_age_order_cx :
    (delete_files_till_bytes_free (fun _ => true)
        [⟨"a", 100, 5⟩, ⟨"b", 50, 10⟩] 5).1 = ["b"]
    ∧ (agePlan [⟨"a", 100, 5⟩, ⟨"b", 50, 10⟩] 5).map CacheFile.name = ["a"]
    ∧ (["b"] : List String) ≠ ["a"]
    ∧ sizeSum [⟨"a", 100, 5⟩] = 5 := by
  refine ⟨by decide, by decide, by decide, by decide⟩

/-- C1 (amended): for every candidate list and positive byte target, when
every delete succeeds the files attempted for deletion by
`_delete_files_till_bytes_free` are exactly the smallest prefix of the
candidates ordered by size descending (largest file first, stable
deterministic tie-break) whose cumulative size reaches the target, or the
full candidate list when the total size stays below the target: the attempt
list equals the accumulating plan over the sorted candidates, that plan is a
prefix of the sorted order, it reaches the target unless it exhausts the
candidates, every proper prefix of it stays below the target, and the sorted
order is a size-descending permutation of the candidates. -/
theorem plan_is_size_ordered_prefix (file_list : List CacheFile) (B : Int)
    (hB : 0 < B) :
    (delete_files_till_bytes_free (fun _ => true) file_list B).1
        = (specPlan (sortFiles file_list) B).map CacheFile.name
    ∧ (∃ t, specPlan (sortFiles file_list) B ++ t = sortFiles file_list)
    ∧ (B ≤ sizeSum (specPlan (sortFiles file_list) B)
        ∨ specPlan (sortFiles file_list) B = sortFiles file_list)
    ∧ (∀ q t, q ++ t = specPlan (sortFiles file_list) B → t ≠ [] →
        sizeSum q < B)
    ∧ List.Sorted bySizeDesc (sortFiles file_list)
    ∧ (sortFiles file_list).Perm file_list := by
  refine ⟨?_, specPlan_append _ _, specPlan_reaches _ _ hB,
    specPlan_minimal _ _ hB, List.sorted_insertionSort bySizeDesc file_list,
    List.perm_insertionSort bySizeDesc file_list⟩
  by_cases hl : file_list = []
  · subst hl
    simp [delete_files_till_bytes_free, sortFiles, List.insertionSort,
      specPlan]
  · rw [delete_files_till_bytes_free, if_pos ⟨hl, hB⟩,
      deleteLoop_allTrue _ _ hB]

/-- Witness for C1's theorem at a concrete input: candidates of sizes 5 and
10 with target 12 are attempted in size-descending order "b" then "a". -/
theorem plan_is_size_ordered_prefix_w :
    (delete_files_till_bytes_free (fun _ => true)
        [⟨"a", 1, 5⟩, ⟨"b", 2, 10⟩] 12).1
      = (specPlan (sortFiles [⟨"a", 1, 5⟩, ⟨"b", 2, 10⟩]) 12).map
          CacheFile.name
    ∧ (delete_files_till_bytes_free (fun _ => true)
        [⟨"a", 1, 5⟩, ⟨"b", 2, 10⟩] 12).1 = ["b", "a"] := by
  have h := plan_is_size_ordered_prefix [⟨"a", 1, 5⟩, ⟨"b", 2, 10⟩] 12
    (by decide)
  exact ⟨h.1, by decide⟩

/-- C9: a delete attempt that fails (the oracle returns false) is recorded
but leaves the remaining-target byte counter unchanged and does not stop the
loop: the remaining candidates are processed exactly as they would have been
without the failed attempt, with the same remaining target. -/
theorem delete_failure_no_decrement (oracle : String → Bool) (f : CacheFile)
    (rest : List CacheFile) (btf : Int) (h : oracle f.name = false) :
    deleteLoop oracle (f :: rest) btf
      = (f.name :: (deleteLoop oracle rest btf).1,
         (deleteLoop oracle rest btf).2) := by
  simp [deleteLoop, h]

/-- Witness for C9's theorem: with every delete failing, both files are
attempted and the counter stays at 5. -/
theorem delete_failure_no_decrement_w :
    deleteLoop (fun _ => false) (⟨"x", 5, 3⟩ :: [⟨"y", 6, 4⟩]) 5
      = ("x" :: (deleteLoop (fun _ => false) [⟨"y", 6, 4⟩] 5).1,
         (deleteLoop (fun _ => false) [⟨"y", 6, 4⟩] 5).2) :=
  delete_failure_no_decrement (fun _ => false) ⟨"x", 5, 3⟩ [⟨"y", 6, 4⟩] 5 rfl

/-- The single-flight invariant: at most one pass runs, and a clear flag
means no pass is running. -/
def JobInv (s : JobSt) : Prop :=
  s.running ≤ 1 ∧ (s.cleaning = false → s.running = 0)

/-- A trigger preserves the single-flight invariant. -/
theorem job_trigger_inv {s : JobSt} (h : JobInv s) : JobInv (job_trigger s) := by
  obtain ⟨c, r⟩ := s
  have h1 : r ≤ 1 := h.1
  have h2 : c = false → r = 0 := h.2
  cases c with
  | false =>
    have hr : r = 0 := h2 rfl
    subst hr
    exact ⟨le_refl 1, fun hcon => nomatch hcon⟩
  | true => exact ⟨h1, h2⟩

/-- A pass completion preserves the single-flight invariant. -/
theorem job_finish_inv {s : JobSt} (h : JobInv s) : JobInv (job_finish s) := by
  obtain ⟨c, r⟩ := s
  have h1 : r ≤ 1 := h.1
  by_cases hr : r = 0
  · subst hr
    exact ⟨Nat.zero_le 1, fun _ => rfl⟩
  · have hgoal : JobInv (⟨false, r - 1⟩ : JobSt) := by
      constructor
      · show r - 1 ≤ 1
        omega
      · intro _
        show r - 1 = 0
        omega
    have heq : job_finish ⟨c, r⟩ = ⟨false, r - 1⟩ := by
      simp [job_finish, hr]
    rw [heq]
    exact hgoal

/-- Every event sequence preserves the single-flight invariant. -/
theorem job_run_inv (ls : List JobLbl) :
    ∀ s : JobSt, JobInv s → JobInv (job_run ls s) := by
  induction ls with
  | nil => intro s h; exact h
  | cons l rest ih =>
    intro s h
    cases l with
    | trigger => exact ih _ (job_trigger_inv h)
    | finish => exact ih _ (job_finish_inv h)

/-- C2: along every sequence of trigger and completion events from the
initial state, at most one reclamation pass is running, and a trigger
arriving while the flag is set starts no new pass — it is dropped, leaving
the state unchanged (nothing is queued). -/
theorem single_flight (trace : List JobLbl) :
    (job_run trace JobInit).running ≤ 1
    ∧ ((job_run trace JobInit).cleaning = true →
        job_trigger (job_run trace JobInit) = job_run trace JobInit) := by
  have h := job_run_inv trace JobInit ⟨by decide, fun _ => rfl⟩
  exact ⟨h.1, fun hc => by simp [job_trigger, hc]⟩

/-- Witness for C2's theorem: after one trigger a pass is running, a second
trigger changes nothing. -/
theorem single_flight_w :
    (job_run [JobLbl.trigger] JobInit).running ≤ 1
    ∧ job_trigger (job_run [JobLbl.trigger] JobInit)
        = job_run [JobLbl.trigger] JobInit :=
  ⟨(single_flight [JobLbl.trigger]).1, (single_flight [JobLbl.trigger]).2 rfl⟩

/-- C5 (counterexample): `_spawn_clean_cache_job` does not return a boolean:
on both paths the Python function returns `None` — in particular it does not
return `false` when a pass is already running, nor `true` when it launches
one. -/
theorem spawn_returns_none_cx :
    (spawn_clean_cache_job true).retval = none
    ∧ (spawn_clean_cache_job true).retval ≠ some false
    ∧ (spawn_clean_cache_job false).retval ≠ some true := by
  refine ⟨rfl, by decide, by decide⟩

/-- C5 (amended): the trigger returns no value (Python `None`) on both
paths; when the flag is already set it returns immediately without launching
or queuing anything and leaves the flag set, and when the flag is clear it
sets the flag and launches the job. -/
theorem spawn_contract :
    spawn_clean_cache_job true = ⟨true, false, none⟩
    ∧ spawn_clean_cache_job false = ⟨true, true, none⟩ := by
  refine ⟨rfl, rfl⟩

/-- C3 (counterexample): when the directory-listing command fails,
`_find_old_cache_files` does not return an empty collection — the error
propagates out of the scanner (there is no handler inside it). -/
theorem scanner_error_cx :
    find_old_cache_files (fun _ => []) "/mnt/share1"
        (Except.error "find failed")
      = Except.error "find failed"
    ∧ find_old_cache_files (fun _ => []) "/mnt/share1"
        (Except.error "find failed")
      ≠ (Except.ok [] : Except Err (List CacheFile)) := by
  refine ⟨rfl, fun hcon => Except.noConfusion hcon⟩

/-- C3 (amended): `_find_old_cache_files` returns the empty collection and
no error when the share is empty (the listing produced no output), but a
failing listing command propagates its error out of the scanner unchanged —
the failure is caught and logged by the per-share handler of
`_clean_image_cache`, not inside the scanner. -/
theorem scanner_empty_ok_error_propagates
    (shortlist : List String → List CacheFile) (mount_fs : String) :
    find_old_cache_files shortlist mount_fs (Except.ok "") = Except.ok []
    ∧ ∀ e : Err, find_old_cache_files shortlist mount_fs (Except.error e)
        = Except.error e := by
  exact ⟨rfl, fun _ => rfl⟩

/-- C6: the share loop of `_clean_image_cache` records one outcome for every
share, each outcome depending only on that share's own processing — a
raised exception on one share (recorded as an error outcome) never aborts
the sweep of the remaining shares. -/
theorem sweep_processes_every_share (cfg : Config) (be : Backend)
    (shares : List Share) :
    clean_loop cfg be shares
        = shares.map (fun sh => (sh, process_share cfg be sh))
    ∧ (clean_image_cache (Except.ok cfg) be shares).outcomes
        = Except.ok (shares.map (fun sh => (sh, process_share cfg be sh)))
    ∧ ∀ sh ∈ shares,
        (sh, process_share cfg be sh) ∈ clean_loop cfg be shares := by
  have hmap : ∀ l : List Share,
      clean_loop cfg be l = l.map (fun sh => (sh, process_share cfg be sh)) := by
    intro l
    induction l with
    | nil => rfl
    | cons a t ih => simp [clean_loop, ih]
  refine ⟨hmap shares, ?_, ?_⟩
  · show Except.ok (clean_loop cfg be shares) = _
    rw [hmap shares]
  · intro sh hsh
    rw [hmap shares]
    exact List.mem_map.mpr ⟨sh, hsh, rfl⟩

/-- Witness for C6's theorem: with a backend whose capacity query raises on
share "s1", both "s1" (with its caught error) and "s2" appear in the
outcome list. -/
theorem sweep_processes_every_share_w :
    clean_loop ⟨70, 80⟩ beW ["s1", "s2"]
      = [("s1", process_share ⟨70, 80⟩ beW "s1"),
         ("s2", process_share ⟨70, 80⟩ beW "s2")]
    ∧ ("s2", process_share ⟨70, 80⟩ beW "s2")
        ∈ clean_loop ⟨70, 80⟩ beW ["s1", "s2"] := by
  have h := sweep_processes_every_share ⟨70, 80⟩ beW ["s1", "s2"]
  exact ⟨h.1, h.2.2 "s2" (by simp)⟩

/-- C7: the `finally` block of `_clean_image_cache` resets the cleaning flag
on every exit path — whether the configuration reads raised before the share
loop, or the loop ran over any list of shares with any mix of per-share
outcomes, the pass ends with the flag cleared. -/
theorem cleaning_reset_on_every_path (cfgRes : Except Err Config)
    (be : Backend) (shares : List Share) :
    (clean_image_cache cfgRes be shares).cleaning = false := by
  cases cfgRes with
  | error e => rfl
  | ok cfg => rfl

/-- C4 (counterexample): a share with 705 of 1000 bytes available has exact
available percentage 70.5, strictly above a start threshold of 70 — yet the
pass scans it, because the code compares the truncated percentage
`int(70.5) = 70 ≤ 70`. -/
theorem threshold_gating_cx :
    (70 : ℚ) < 705 / 1000 * 100
    ∧ process_share ⟨70, 80⟩ beC4 "share1" = Except.ok ⟨true, []⟩ := by
  constructor
  · norm_num
  · rfl

/-- C4 (amended): for every share whose truncated available percentage
`int(available / total * 100)` is strictly greater than
`thres_avl_size_perc_start`, the pass performs no scan and no delete for
that share. -/
theorem threshold_gating (cfg : Config) (be : Backend) (sh : Share)
    (total avl : Nat) (hc : be.capacity sh = Except.ok (total, avl))
    (h : cfg.thres_avl_size_perc_start < avl_percent total avl) :
    process_share cfg be sh = Except.ok ⟨false, []⟩ := by
  have ht : total ≠ 0 := by
    intro h0
    subst h0
    rw [avl_percent, Nat.div_zero] at h
    exact Nat.not_lt_zero _ h
  rw [process_share]
  show (be.capacity sh >>= fun cap => _) = _
  rw [hc]
  show (if total = 0 then _ else _) = _
  rw [if_neg ht, if_neg (Nat.not_le.mpr h)]
  rfl

/-- Witness for C4's theorem: a share with 80 of 100 bytes available against
a start threshold of 70 is skipped. -/
theorem threshold_gating_w :
    process_share ⟨70, 80⟩ beW "s2" = Except.ok ⟨false, []⟩ :=
  threshold_gating ⟨70, 80⟩ beW "s2" 100 80 rfl (by decide)

/-- The integer byte target of the code is the floor of the exact rational
threshold quantity. -/
theorem target_bytes_eq_floor (stop total avl : Nat) :
    target_bytes stop total avl
      = ⌊((stop * total : Nat) : ℚ) / 100⌋ - (avl : Int) := by
  rw [target_bytes]
  have h := Rat.floor_natCast_div_natCast (stop * total) 100
  rw [show ((100 : Nat) : ℚ) = (100 : ℚ) by norm_num] at h
  rw [h]
  omega

/-- C8 (counterexample): with stop threshold 75 on a share of 30 total bytes
and 22 available, the byte target passed to deletion is
`int(75 * 30 / 100) - 22 = 0`, while the claim's exact quantity
`75 * 30 / 100 - 22` is `1/2`: the two differ, and although the exact
quantity is positive and a 1-byte stale candidate exists, no file is
deleted. -/
theorem target_bytes_cx :
    target_bytes 75 30 22 = 0
    ∧ ((target_bytes 75 30 22 : ℚ) ≠ (75 * 30 : ℚ) / 100 - 22)
    ∧ ((0 : ℚ) < (75 * 30 : ℚ) / 100 - 22)
    ∧ process_share ⟨80, 75⟩ beC8 "export1" = Except.ok ⟨true, []⟩ := by
  have h0 : target_bytes 75 30 22 = 0 := by decide
  refine ⟨h0, ?_, by norm_num, rfl⟩
  rw [h0]
  norm_num

/-- C8 (amended): for a share at or below the start threshold whose scan
succeeded, the byte target passed to deletion is the floor of
`stop_threshold_percent * total / 100` minus the available bytes; whenever
the exact rational quantity is at most zero so is the passed target, and
whenever the passed target is at most zero no file on the share is deleted
in the pass. -/
theorem target_bytes_spec (cfg : Config) (be : Backend) (sh : Share)
    (total avl : Nat) (files : List CacheFile)
    (hc : be.capacity sh = Except.ok (total, avl))
    (ht : total ≠ 0)
    (hp : avl_percent total avl ≤ cfg.thres_avl_size_perc_start)
    (hf : find_old_cache_files be.shortlist (be.mount sh) (be.listing sh)
        = Except.ok files) :
    target_bytes cfg.thres_avl_size_perc_stop total avl
        = ⌊((cfg.thres_avl_size_perc_stop * total : Nat) : ℚ) / 100⌋
            - (avl : Int)
    ∧ (((cfg.thres_avl_size_perc_stop * total : Nat) : ℚ) / 100 - (avl : ℚ)
          ≤ 0 →
        target_bytes cfg.thres_avl_size_perc_stop total avl ≤ 0)
    ∧ (target_bytes cfg.thres_avl_size_perc_stop total avl ≤ 0 →
        process_share cfg be sh = Except.ok ⟨true, []⟩) := by
  refine ⟨target_bytes_eq_floor _ _ _, ?_, ?_⟩
  · intro hq
    rw [target_bytes_eq_floor]
    have hfl : (⌊((cfg.thres_avl_size_perc_stop * total : Nat) : ℚ) / 100⌋
        : ℚ) ≤ (avl : ℚ) :=
      le_trans (Int.floor_le _) (by linarith)
    have hcast : (⌊((cfg.thres_avl_size_perc_stop * total : Nat) : ℚ) / 100⌋
        : ℤ) ≤ (avl : ℤ) := by exact_mod_cast hfl
    omega
  · intro hle
    rw [process_share]
    show (be.capacity sh >>= fun cap => _) = _
    rw [hc]
    show (if total = 0 then _ else _) = _
    rw [if_neg ht, if_pos hp]
    show (find_old_cache_files be.shortlist (be.mount sh) (be.listing sh)
        >>= fun eligible_files => _) = _
    rw [hf]
    show Except.ok (⟨true, (delete_files_till_bytes_free be.delete_ok files
      (target_bytes cfg.thres_avl_size_perc_stop total avl)).1⟩ : ShareEffects)
      = _
    rw [delete_files_till_bytes_free,
      if_neg (fun hcon => absurd hcon.2 (not_lt.mpr hle))]

/-- Witness for C8's theorem: stop threshold 75 on a 30-byte share with 22
bytes available yields target 0 and an empty delete list despite a stale
candidate. -/
theorem target_bytes_spec_w :
    target_bytes 75 30 22
        = ⌊((75 * 30 : Nat) : ℚ) / 100⌋ - (22 : Int)
    ∧ process_share ⟨80, 75⟩ beC8 "export1" = Except.ok ⟨true, []⟩ := by
  have h := target_bytes_spec ⟨80, 75⟩ beC8 "export1" 30 22
    [⟨"img-cache-1", 10, 1⟩] rfl (by decide) (by decide) rfl
  exact ⟨h.1, h.2.2 (by decide)⟩

/-- C10 (counterexample): when `na_utils.get_volume_extra_specs` raises —
it runs before the `try` block of `clone_image` — the exception propagates
to the caller instead of the function returning the fallback pair. -/
theorem clone_image_raises_cx :
    clone_image (Except.error "extra specs lookup failed") (Except.ok [])
        (Except.ok false) (Except.ok false) (Except.ok ()) (Except.ok false)
        "share1"
      = Except.error "extra specs lookup failed"
    ∧ clone_image (Except.error "extra specs lookup failed") (Except.ok [])
        (Except.ok false) (Except.ok false) (Except.ok ()) (Except.ok false)
        "share1"
      ≠ Except.ok ⟨none, false, false⟩ := by
  refine ⟨rfl, fun hcon => Except.noConfusion hcon⟩

/-- C10 (amended): whenever the pre-`try` extra-specs lookup succeeds,
`clone_image` returns normally for every behaviour of its internal steps: it
returns the properties pair and the flag, with `provider_location` set and
the flag true exactly when the final flag `cloned and post_clone` is true;
that flag is true only when the clone step returned true and the QoS and
post-clone steps both succeeded with post-clone true — so when any internal
step raises, the flag is false and the result is the fallback pair. -/
theorem clone_image_contract
    (find_in_cache : Except Err (List (Share × String)))
    (cc dc : Except Err Bool) (qos : Except Err Unit)
    (post : Except Err Bool) (loc : String) :
    clone_image (Except.ok ()) find_in_cache cc dc qos post loc
      = Except.ok
          ⟨if (clone_image_body find_in_cache cc dc qos post).1
              && (clone_image_body find_in_cache cc dc qos post).2
            then some loc else none,
           (clone_image_body find_in_cache cc dc qos post).1
             && (clone_image_body find_in_cache cc dc qos post).2,
           (clone_image_body find_in_cache cc dc qos post).1
             && (clone_image_body find_in_cache cc dc qos post).2⟩
    ∧ (((clone_image_body find_in_cache cc dc qos post).1
          && (clone_image_body find_in_cache cc dc qos post).2) = true →
        qos = Except.ok () ∧ post = Except.ok true ∧
          ∃ cr, find_in_cache = Except.ok cr ∧
            (if cr.isEmpty then dc else cc) = Except.ok true) := by
  refine ⟨rfl, ?_⟩
  intro hb
  cases find_in_cache with
  | error e => exact Bool.noConfusion hb
  | ok cr =>
    have hbody : clone_image_body (Except.ok cr) cc dc qos post
        = clone_step (if cr.isEmpty then dc else cc) qos post := rfl
    rw [hbody] at hb
    cases hcl : (if cr.isEmpty then dc else cc) with
    | error e =>
      rw [hcl] at hb
      exact Bool.noConfusion hb
    | ok cl =>
      cases cl with
      | false =>
        rw [hcl] at hb
        exact Bool.noConfusion hb
      | true =>
        cases hq : qos with
        | error e =>
          rw [hcl, hq] at hb
          exact Bool.noConfusion hb
        | ok u =>
          cases hp : post with
          | error e =>
            rw [hcl, hq, hp] at hb
            exact Bool.noConfusion hb
          | ok pc =>
            cases pc with
            | false =>
              rw [hcl, hq, hp] at hb
              exact Bool.noConfusion hb
            | true =>
              exact ⟨by cases u; rfl, rfl, cr, rfl, hcl⟩

/-- Witness for C10's theorem: with every step succeeding and the cache hit
present, `clone_image` returns the share location with both flags true, and
the post-clone step indeed returned true. -/
theorem clone_image_contract_w :
    clone_image (Except.ok ()) (Except.ok [("sh1", "f1")]) (Except.ok true)
        (Except.ok false) (Except.ok ()) (Except.ok true) "sh1"
      = Except.ok ⟨some "sh1", true, true⟩
    ∧ (Except.ok true : Except Err Bool) = Except.ok true := by
  have h := clone_image_contract (Except.ok [("sh1", "f1")]) (Except.ok true)
    (Except.ok false) (Except.ok ()) (Except.ok true) "sh1"
  exact ⟨h.1, (h.2 rfl).2.1⟩

end Cinder
